import Mathlib

/-!
Shallow embedding of the kas-vanity repository (src/main.rs, src/vanity.rs):
a Kaspa vanity-address miner. Text is modelled as `List Char` (the address
alphabet and validated patterns are ASCII). External collaborators (the
bip39, bip32, kaspa-addresses and rand crates) are modelled as abstract
oracle functions used only through their stated contracts; everything else
is translated directly from the Rust source.
-/

namespace KasVanity

/-! ## Character case folding

Model of Rust `str::to_lowercase` restricted to ASCII (the only characters
occurring in bech32 address payloads and validated patterns): uppercase
letters `A`..`Z` (codes 65..90) map to codes 97..122, all else is fixed. -/

def to_lower_char (c : Char) : Char :=
  if 65 ≤ c.toNat ∧ c.toNat ≤ 90 then Char.ofNat (c.toNat + 32) else c

/-- Rust `str::to_lowercase`, applied characterwise. -/
def to_lower (s : List Char) : List Char :=
  s.map to_lower_char

/-! ## Matcher (main.rs lines 156-186)

The worker computes `payload = addr_str.split(':').nth(1).unwrap_or("")`,
takes `&payload[2..]` when `payload.len() > 2` (else the empty string), and
tests `starts_with` / `ends_with` on it, lowercasing the tail per comparison
when matching is case-insensitive. -/

/-- Second `':'`-separated segment of the address text, `""` when there is
no `':'` — the Rust `addr_str.split(':').nth(1).unwrap_or("")`. -/
def payload_of (addr : List Char) : List Char :=
  match addr.dropWhile (fun c => c != ':') with
  | [] => []
  | _ :: rest => rest.takeWhile (fun c => c != ':')

/-- Searchable tail: the payload minus its two structural leading characters,
empty when the payload has length ≤ 2 (main.rs line 166). -/
def searchable_of (payload : List Char) : List Char :=
  if payload.length > 2 then payload.drop 2 else []

/-- The match test of main.rs lines 169-186: prefix via `is_none_or` +
`starts_with`, suffix via `is_none_or` + `ends_with`, the tail lowercased
per comparison when `case_sensitive` is false. -/
def addr_matches (case_sensitive : Bool) (pre suf : Option (List Char)) (addr : List Char) : Bool :=
  let payload := payload_of addr
  let searchable := searchable_of payload
  let pre_match :=
    match pre with
    | none => true
    | some p =>
      if case_sensitive then p.isPrefixOf searchable else p.isPrefixOf (to_lower searchable)
  let suf_match :=
    match suf with
    | none => true
    | some s =>
      if case_sensitive then s.isSuffixOf searchable else s.isSuffixOf (to_lower searchable)
  pre_match && suf_match

/-- Pattern normalization at startup (main.rs lines 98-108): the raw CLI
pattern is lowercased once unless matching is case-sensitive. -/
def normalize_pattern (case_sensitive : Bool) (p : List Char) : List Char :=
  if case_sensitive then p else to_lower p

/-- The matcher as invoked from `main`: raw patterns are normalized once at
startup, then `addr_matches` runs per address. -/
def matches_cli (case_sensitive : Bool) (pre suf : Option (List Char)) (addr : List Char) :
    Bool :=
  addr_matches case_sensitive (pre.map (normalize_pattern case_sensitive))
    (suf.map (normalize_pattern case_sensitive)) addr

/-! ## Pattern validation and startup (main.rs lines 53-66 and 70-128) -/

/-- The excluded bech32 characters, `INVALID_CHARS` of main.rs line 96. -/
def invalid_chars : List Char := ['1', 'b', 'i', 'o']

/-- The `validate_pattern` helper of main.rs lines 53-66: it looks for the
first disallowed character; on `some`, the program prints the charset
message and exits with status 1. -/
def validate_pattern (pat : List Char) : Option Char :=
  pat.find? (fun c => invalid_chars.contains c)

/-- The parsed CLI arguments of main.rs lines 20-48 (the thread count is
consumed only by the pool builder and is irrelevant here). -/
structure Args where
  pre : Option (List Char)
  suf : Option (List Char)
  case_sensitive : Bool
  words : Nat
  scan_limit : Nat

/-- Search configuration after normalization and validation. -/
structure Config where
  pre : Option (List Char)
  suf : Option (List Char)
  case_sensitive : Bool
  scan_limit : Nat

/-- Startup sequence of `main` before the search loop (main.rs lines 70-128):
require at least one pattern, normalize and validate the prefix, then the
suffix; `Except.error 1` models `std::process::exit(1)` happening before any
candidate is generated. -/
def startup (a : Args) : Except Nat Config :=
  if a.pre.isNone && a.suf.isNone then Except.error 1
  else if (a.pre.map (normalize_pattern a.case_sensitive)).any
      (fun p => (validate_pattern p).isSome) then Except.error 1
  else if (a.suf.map (normalize_pattern a.case_sensitive)).any
      (fun s => (validate_pattern s).isSome) then Except.error 1
  else
    Except.ok ⟨a.pre.map (normalize_pattern a.case_sensitive),
      a.suf.map (normalize_pattern a.case_sensitive), a.case_sensitive, a.scan_limit⟩

/-! ## Progress reporting (main.rs lines 112-116 and 148-154)

The per-address match probability and the estimate `1 - (1 - p)^n` are
computed in `f64` in the source; they are modelled exactly over `ℚ`. -/

/-- `prob_single` of main.rs line 116: `1.0 / 32.0^(prefix_len + suffix_len)`. -/
def prob_single (pre_len suf_len : Nat) : ℚ :=
  1 / 32 ^ (pre_len + suf_len)

/-- Relaxed `fetch_add` on the shared counter: returns the PREVIOUS value
together with the updated counter (main.rs line 148). -/
def fetch_add (counter k : Nat) : Nat × Nat :=
  (counter, counter + k)

/-- The progress branch of main.rs lines 151-154: a line (carrying the
estimate `1 - (1 - p)^count`) is printed exactly when the value returned by
`fetch_add` — the count BEFORE this batch was added — is a multiple of 1000. -/
def progress_output (p : ℚ) (prev : Nat) : Option ℚ :=
  if prev % 1000 = 0 then some (1 - (1 - p) ^ prev) else none

/-- The spec's reading of the trigger: the addition of the batch size `k`
makes the cumulative count cross a multiple of 1000, i.e. some multiple of
1000 lies in the interval `(prev, prev + k]`. -/
def crosses_multiple (prev k : Nat) : Prop :=
  ∃ m, 1 ≤ m ∧ prev < 1000 * m ∧ 1000 * m ≤ prev + k

/-! ## Candidate generator (vanity.rs lines 14-30) -/

/-- Entropy length selection of vanity.rs lines 20-24: 12 words ↦ 16 bytes,
24 words ↦ 32 bytes, anything else defaults to 32 bytes. -/
def entropy_len (word_count : Nat) : Nat :=
  match word_count with
  | 12 => 16
  | 24 => 32
  | _ => 32

/-- Modelled from the spec: the bip39 collaborator `Mnemonic::from_entropy`
(out of scope, used via its contract) encodes `b` bytes of entropy into
`(8·b + 8·b/32) / 11` words — entropy bits plus one checksum bit per 32
entropy bits, 11 bits per word. -/
def mnemonic_word_count (entropy : List Nat) : Nat :=
  (entropy.length * 8 + entropy.length * 8 / 32) / 11

/-- `generate_random_mnemonic` of vanity.rs lines 14-30: draw
`entropy_len word_count` random bytes (the rng is an oracle) and encode
them; the mnemonic is represented by its entropy bytes. -/
def generate_random_mnemonic (rng : Nat → List Nat) (word_count : Nat) : List Nat :=
  rng (entropy_len word_count)

/-! ## Batch derivation (vanity.rs lines 36-81)

The bip32 and secp256k1 primitives are external: they are collected in a
`DerivOracle` over an abstract extended-key type `K`. `derive_batch` itself
— the sequencing, the early returns, the skip-on-child-failure loop and the
`.unwrap()` on `ChildNumber::new` — is translated from the source.
`none` as overall result models a panic (process abort); `some l` models a
normal return of `l`. -/

/-- `bip32::ChildNumber::new(index, hardened)` (external contract): fails
iff the index already has the hardened bit, i.e. `index ≥ 2^31`. -/
def child_number_new (index : Nat) (hardened : Bool) : Option Nat :=
  if index < 2 ^ 31 then some (if hardened then index + 2 ^ 31 else index) else none

/-- Network tag of a Kaspa address (`kaspa_addresses::Prefix`); the source
always uses the mainnet tag. -/
inductive NetTag where
  | mainnet
  | testnet
  deriving DecidableEq

/-- Address version used by the source (`kaspa_addresses::Version::PubKey`). -/
inductive AddrVersion where
  | pubKey
  deriving DecidableEq

/-- `kaspa_addresses::Address` as constructed at vanity.rs line 74. -/
structure Address where
  net_tag : NetTag
  version : AddrVersion
  payload : List Nat
  deriving DecidableEq

/-- Modelled from the spec: the textual network tag; address text has the
fixed shape `"<network-tag>:<payload>"` (spec section 6), and the test at
vanity.rs line 110 fixes the mainnet tag to `"kaspa"`. -/
def net_tag_text (t : NetTag) : List Char :=
  match t with
  | NetTag.mainnet => ['k', 'a', 's', 'p', 'a']
  | NetTag.testnet => ['k', 'a', 's', 'p', 'a', 't', 'e', 's', 't']

/-- Oracle bundle for the external collaborators of `derive_batch`:
`mnemonic.to_seed("")`, `XPrv::new`, `DerivationPath::from_str`,
`derive_child`, compressed public-key extraction, and the bech32 payload
encoder of the address `Display`. `K` is the abstract extended-key type. -/
structure DerivOracle (K : Type) where
  toSeed : List Nat → List Nat
  xprvNew : List Nat → Option K
  pathParse : List Char → Option (List Nat)
  deriveChild : K → Nat → Option K
  compressedPubkey : K → List Nat
  encodePayload : List Nat → List Char

/-- ASCII apostrophe, used by the hardened path components. -/
def tick_char : Char := Char.ofNat 39

/-- The fixed account derivation path string of vanity.rs line 44:
`m/44'/111111'/0'/0`. -/
def account_path : List Char :=
  ['m', '/', '4', '4', tick_char, '/', '1', '1', '1', '1', '1', '1', tick_char, '/', '0',
   tick_char, '/', '0']

/-- Address construction of vanity.rs lines 63-74: compress the child's
public key, drop the leading byte (x-only key), build a mainnet pubkey
address. -/
def mk_address {K : Type} (O : DerivOracle K) (child : K) : Address :=
  let compressed := O.compressedPubkey child
  let x_only := compressed.drop 1
  ⟨NetTag.mainnet, AddrVersion.pubKey, x_only⟩

/-- Modelled from the spec: `Address::to_string()` produces
`"<network-tag>:<payload>"` (spec section 6); the payload encoding itself is
the oracle's `encodePayload`. -/
def address_text {K : Type} (O : DerivOracle K) (a : Address) : List Char :=
  net_tag_text a.net_tag ++ [':'] ++ O.encodePayload a.payload

/-- The account-key loop of vanity.rs lines 48-55: fold `derive_child` over
the parsed path components, bailing out on the first failure. -/
def derive_account {K : Type} (O : DerivOracle K) : K → List Nat → Option K
  | k, [] => some k
  | k, c :: rest =>
    match O.deriveChild k c with
    | none => none
    | some k2 => derive_account O k2 rest

/-- The index loop of vanity.rs lines 59-78 over a list of indices.
`child_number_new i false` is `.unwrap()`ed in the source, so its failure is
a panic (`none` overall); a failing `derive_child` merely skips the index —
the `if let Ok` has no `else` — and the loop continues. -/
def derive_indices {K : Type} (O : DerivOracle K) (acct : K) :
    List Nat → Option (List (Nat × Address))
  | [] => some []
  | i :: rest =>
    match child_number_new i false with
    | none => none
    | some c =>
      match O.deriveChild acct c with
      | none => derive_indices O acct rest
      | some child => (derive_indices O acct rest).map (fun tl => (i, mk_address O child) :: tl)

/-- `derive_batch` of vanity.rs lines 36-81: seed the mnemonic, build the
master key, parse the fixed path, derive the account key (each failure
returns the empty vector), then run the index loop over `0..limit`. -/
def derive_batch {K : Type} (O : DerivOracle K) (mnemonic : List Nat) (limit : Nat) :
    Option (List (Nat × Address)) :=
  let seed := O.toSeed mnemonic
  match O.xprvNew seed with
  | none => some []
  | some xprv =>
    match O.pathParse account_path with
    | none => some []
    | some children =>
      match derive_account O xprv children with
      | none => some []
      | some acct => derive_indices O acct (List.range limit)

/-! ## Search coordinator shared state (main.rs lines 127-201)

The two shared atomics and the effect of one worker-loop iteration on them.
`found` is only ever stored `true`, at main.rs line 197, immediately before
`std::process::exit(0)`; all other iterations leave it untouched. -/

/-- The process-wide shared state: `found` and the processed counter
(main.rs lines 127-128). -/
structure SearchState where
  found : Bool
  processed : Nat
  deriving DecidableEq

/-- State at program start: `AtomicBool::new(false)`, `AtomicU64::new(0)`. -/
def init_state : SearchState := ⟨false, 0⟩

/-- Effect of one worker-loop iteration (main.rs lines 133-201) on the
shared state: an early return after observing `found` (line 134), an empty
batch warning (lines 143-146), a scanned batch of `k` addresses with no
match (counter `fetch_add`), or a match (counter `fetch_add`, then the only
store to `found`, of `true`, right before process exit). -/
inductive WorkerStep : SearchState → SearchState → Prop where
  | seen_found : ∀ s, s.found = true → WorkerStep s s
  | empty_batch : ∀ s, s.found = false → WorkerStep s s
  | scanned : ∀ s k, s.found = false → 0 < k → WorkerStep s ⟨false, s.processed + k⟩
  | match_found : ∀ s k, s.found = false → 0 < k → WorkerStep s ⟨true, s.processed + k⟩

/-- Observable outcome of one worker iteration's batch handling
(main.rs lines 141-200). -/
inductive IterOutcome where
  | warnRetry
  | matched (index : Nat) (addr : List Char)
  | noMatch
  deriving DecidableEq

/-- One worker iteration after candidate generation (main.rs lines 141-200):
derive a batch (propagating a panic as `none`), warn and retry on an empty
batch, otherwise scan the batch in order for the first matching address. -/
def worker_iteration {K : Type} (O : DerivOracle K) (cfg : Config) (m : List Nat) :
    Option IterOutcome :=
  (derive_batch O m cfg.scan_limit).map fun addrs =>
    if addrs.isEmpty then IterOutcome.warnRetry
    else
      match addrs.find?
          (fun pr => addr_matches cfg.case_sensitive cfg.pre cfg.suf (address_text O pr.2)) with
      | some pr => IterOutcome.matched pr.1 (address_text O pr.2)
      | none => IterOutcome.noMatch

/-! ## Concrete oracles, used to evaluate the theorems on closed inputs -/

/-- Oracle on `K := Nat` where every external operation succeeds. -/
def oracle_all_ok : DerivOracle Nat :=
  ⟨fun s => s, fun _ => some 0, fun _ => some [], fun k c => some (k + c + 1),
   fun k => [2, k], fun bytes => bytes.map (fun _ => 'q')⟩

/-- Oracle where the child derivation fails exactly at child number 0 and
succeeds elsewhere. -/
def oracle_child_zero_fails : DerivOracle Nat :=
  ⟨fun s => s, fun _ => some 0, fun _ => some [], fun _ c => if c = 0 then none else some c,
   fun k => [2, k], fun _ => []⟩

/-- Oracle where master-key creation (`XPrv::new`) fails. -/
def oracle_master_fails : DerivOracle Nat :=
  ⟨fun s => s, fun _ => none, fun _ => some [], fun k c => some (k + c), fun k => [2, k],
   fun _ => []⟩

/-! ## Helper lemmas -/

theorem toNat_ofNat_valid (n : Nat) (h : n.isValidChar) : (Char.ofNat n).toNat = n := by
  simp [Char.ofNat, h, Char.toNat, Char.ofNatAux, UInt32.toNat, BitVec.toNat_ofNatLt]

theorem char_eq_of_toNat_eq {c d : Char} (h : c.toNat = d.toNat) : c = d :=
  Char.eq_of_val_eq (UInt32.ext h)

theorem to_lower_char_toNat (c : Char) :
    (to_lower_char c).toNat = if 65 ≤ c.toNat ∧ c.toNat ≤ 90 then c.toNat + 32 else c.toNat := by
  unfold to_lower_char
  split
  · next h => rw [toNat_ofNat_valid _ (Or.inl (by omega))]
  · next h => rfl

theorem to_lower_char_idem (c : Char) : to_lower_char (to_lower_char c) = to_lower_char c := by
  have ht := to_lower_char_toNat c
  have hn : ¬(65 ≤ (to_lower_char c).toNat ∧ (to_lower_char c).toNat ≤ 90) := by
    split at ht <;> omega
  show (if 65 ≤ (to_lower_char c).toNat ∧ (to_lower_char c).toNat ≤ 90
        then Char.ofNat ((to_lower_char c).toNat + 32) else to_lower_char c) = to_lower_char c
  rw [if_neg hn]

theorem to_lower_idem (s : List Char) : to_lower (to_lower s) = to_lower s := by
  unfold to_lower
  rw [List.map_map]
  exact List.map_congr_left fun c _ => to_lower_char_idem c

theorem to_lower_char_eq_colon (c : Char) : to_lower_char c = ':' ↔ c = ':' := by
  constructor
  · intro h
    have h2 := congrArg Char.toNat h
    rw [to_lower_char_toNat] at h2
    have hcol : (':' : Char).toNat = 58 := by decide
    rw [hcol] at h2
    split at h2
    · omega
    · exact char_eq_of_toNat_eq (by omega)
  · intro h
    subst h
    decide

theorem to_lower_char_bne_colon (c : Char) : (to_lower_char c != ':') = (c != ':') := by
  by_cases h : c = ':'
  · subst h; decide
  · have h2 : to_lower_char c ≠ ':' := fun hc => h ((to_lower_char_eq_colon c).mp hc)
    rw [Bool.eq_iff_iff]
    simp [bne_iff_ne, h, h2]

theorem payload_of_to_lower (addr : List Char) :
    payload_of (to_lower addr) = to_lower (payload_of addr) := by
  unfold payload_of to_lower
  rw [List.dropWhile_map]
  have hp : ((fun c => c != ':') ∘ to_lower_char) = (fun c => c != ':') := by
    funext c
    exact to_lower_char_bne_colon c
  rw [hp]
  cases addr.dropWhile (fun c => c != ':') with
  | nil => rfl
  | cons x rest =>
    simp only [List.map_cons]
    rw [List.takeWhile_map, hp]

theorem searchable_of_to_lower (payload : List Char) :
    searchable_of (to_lower payload) = to_lower (searchable_of payload) := by
  unfold searchable_of to_lower
  rw [List.length_map]
  split
  · rw [List.map_drop]
  · rfl

theorem derive_batch_early_xprv {K : Type} (O : DerivOracle K) (m : List Nat) (limit : Nat)
    (hx : O.xprvNew (O.toSeed m) = none) : derive_batch O m limit = some [] := by
  simp [derive_batch, hx]

theorem derive_batch_early_path {K : Type} (O : DerivOracle K) (m : List Nat) (limit : Nat)
    (x : K) (hx : O.xprvNew (O.toSeed m) = some x) (hp : O.pathParse account_path = none) :
    derive_batch O m limit = some [] := by
  simp [derive_batch, hx, hp]

theorem derive_batch_early_account {K : Type} (O : DerivOracle K) (m : List Nat) (limit : Nat)
    (x : K) (cs : List Nat) (hx : O.xprvNew (O.toSeed m) = some x)
    (hp : O.pathParse account_path = some cs) (ha : derive_account O x cs = none) :
    derive_batch O m limit = some [] := by
  simp [derive_batch, hx, hp, ha]

theorem derive_batch_success {K : Type} (O : DerivOracle K) (m : List Nat) (limit : Nat)
    (x : K) (cs : List Nat) (acct : K) (hx : O.xprvNew (O.toSeed m) = some x)
    (hp : O.pathParse account_path = some cs) (ha : derive_account O x cs = some acct) :
    derive_batch O m limit = derive_indices O acct (List.range limit) := by
  simp [derive_batch, hx, hp, ha]

theorem child_number_new_small (i : Nat) (h : i < 2 ^ 31) :
    child_number_new i false = some i := by
  unfold child_number_new
  rw [if_pos h]
  rfl

theorem child_number_new_big (i : Nat) (h : 2 ^ 31 ≤ i) :
    child_number_new i false = none := by
  unfold child_number_new
  rw [if_neg (by omega)]

theorem derive_indices_big_none {K : Type} (O : DerivOracle K) (acct : K) (idxs : List Nat)
    (i : Nat) (hbig : 2 ^ 31 ≤ i) (hmem : i ∈ idxs) :
    derive_indices O acct idxs = none := by
  induction idxs with
  | nil => cases hmem
  | cons j rest ih =>
    rcases List.mem_cons.mp hmem with hj | hj
    · subst hj
      simp only [derive_indices, child_number_new_big i hbig]
    · simp only [derive_indices]
      cases hcn : child_number_new j false with
      | none => rfl
      | some c =>
        cases hc : O.deriveChild acct c with
        | none => simp only [hc]; exact ih hj
        | some k => simp [hc, ih hj]

theorem derive_indices_eq_filterMap {K : Type} (O : DerivOracle K) (acct : K) (idxs : List Nat)
    (h : ∀ i ∈ idxs, i < 2 ^ 31) :
    derive_indices O acct idxs
      = some (idxs.filterMap
          (fun i => (O.deriveChild acct i).map (fun k => (i, mk_address O k)))) := by
  induction idxs with
  | nil => rfl
  | cons i rest ih =>
    have hi : i < 2 ^ 31 := h i (List.mem_cons_self i rest)
    have hrest : ∀ j ∈ rest, j < 2 ^ 31 := fun j hj => h j (List.mem_cons_of_mem _ hj)
    unfold derive_indices
    rw [child_number_new_small i hi]
    cases hc : O.deriveChild acct i with
    | none =>
      rw [ih hrest]
      simp [List.filterMap_cons, hc]
    | some k =>
      rw [ih hrest]
      simp [List.filterMap_cons, hc]

theorem filterMap_map_fst {K : Type} (g : Nat → Option K) (f : Nat → K → Address)
    (idxs : List Nat) (h : ∀ i ∈ idxs, (g i).isSome = true) :
    (idxs.filterMap (fun i => (g i).map (fun k => (i, f i k)))).map Prod.fst = idxs := by
  induction idxs with
  | nil => rfl
  | cons i rest ih =>
    have hi := h i (List.mem_cons_self i rest)
    have hrest := ih fun j hj => h j (List.mem_cons_of_mem _ hj)
    cases hg : g i with
    | none => rw [hg] at hi; cases hi
    | some k => simp [List.filterMap_cons, hg, hrest]

theorem mem_filterMap_addr {K : Type} (O : DerivOracle K) (acct : K) (idxs : List Nat)
    (pr : Nat × Address)
    (hmem : pr ∈ idxs.filterMap
        (fun i => (O.deriveChild acct i).map (fun k => (i, mk_address O k)))) :
    ∃ k, pr.2 = mk_address O k := by
  rcases List.mem_filterMap.mp hmem with ⟨i, _, hf⟩
  cases hd : O.deriveChild acct i with
  | none => rw [hd] at hf; cases hf
  | some k =>
    rw [hd] at hf
    simp only [Option.map_some'] at hf
    injection hf with h2
    exact ⟨k, by rw [← h2]⟩

theorem address_text_has_tag {K : Type} (O : DerivOracle K) (k : K) :
    net_tag_text NetTag.mainnet <+: address_text O (mk_address O k) :=
  ⟨[':'] ++ O.encodePayload (mk_address O k).payload, by simp [address_text, mk_address]⟩

theorem startup_scan_limit_id (a : Args) (c : Config) (h : startup a = Except.ok c) :
    c.scan_limit = a.scan_limit := by
  unfold startup at h
  split at h
  · cases h
  · split at h
    · cases h
    · split at h
      · cases h
      · injection h with h2
        rw [← h2]

theorem worker_step_found_mono {s s' : SearchState} (h : WorkerStep s s')
    (hf : s.found = true) : s'.found = true := by
  cases h <;> simp_all

/-! ## Claim theorems -/

/-- C1, counterexample: the claim says that after the first failing
derivation step no pair with an index at or after that step appears, so a
child-derivation failure at index 0 should yield the empty prefix. With an
oracle whose child derivation fails exactly at child number 0,
`derive_batch` with limit 2 nevertheless returns the pair for index 1: the
source's `if let Ok` loop (vanity.rs lines 61-77) skips the failing index
and keeps going. -/
theorem derive_batch_child_failure_cex :
    oracle_child_zero_fails.deriveChild 0 0 = none ∧
      derive_batch oracle_child_zero_fails [] 2
        = some [(1, ⟨NetTag.mainnet, AddrVersion.pubKey, [1]⟩)] := by
  constructor
  · rfl
  · rfl

/-- C1, amended: a failure of master-key creation, path parsing, or the
intermediate (account) derivation makes `derive_batch` return the empty
sequence; a failing child derivation at an index only omits that index's
pair while the loop continues, so (for limits within the unhardened range)
the result is exactly the in-order pairs of the successful indices, not
necessarily a prefix. -/
theorem derive_batch_failure_filter {K : Type} (O : DerivOracle K) (m : List Nat)
    (limit : Nat) :
    ((O.xprvNew (O.toSeed m) = none ∨ O.pathParse account_path = none ∨
        (∃ x cs, O.xprvNew (O.toSeed m) = some x ∧ O.pathParse account_path = some cs ∧
          derive_account O x cs = none)) →
      derive_batch O m limit = some []) ∧
    (∀ x cs acct, O.xprvNew (O.toSeed m) = some x → O.pathParse account_path = some cs →
      derive_account O x cs = some acct → limit ≤ 2 ^ 31 →
      derive_batch O m limit
        = some ((List.range limit).filterMap
            (fun i => (O.deriveChild acct i).map (fun k => (i, mk_address O k))))) := by
  constructor
  · intro h
    rcases h with hx | hp | ⟨x, cs, hx, hp, ha⟩
    · exact derive_batch_early_xprv O m limit hx
    · cases hx : O.xprvNew (O.toSeed m) with
      | none => exact derive_batch_early_xprv O m limit hx
      | some x => exact derive_batch_early_path O m limit x hx hp
    · exact derive_batch_early_account O m limit x cs hx hp ha
  · intro x cs acct hx hp ha hlim
    rw [derive_batch_success O m limit x cs acct hx hp ha]
    exact derive_indices_eq_filterMap O acct _
      (fun i hi => lt_of_lt_of_le (List.mem_range.mp hi) hlim)

/-- C1, witness: the amended theorem evaluated on concrete oracles — a
failing master key yields the empty batch, and an all-success oracle yields
the filtered sequence. -/
theorem derive_batch_failure_filter_witness :
    derive_batch oracle_master_fails [] 5 = some [] ∧
      derive_batch oracle_all_ok [] 2
        = some ((List.range 2).filterMap
            (fun i => (oracle_all_ok.deriveChild 0 i).map
              (fun k => (i, mk_address oracle_all_ok k)))) :=
  ⟨(derive_batch_failure_filter oracle_master_fails [] 5).1 (Or.inl rfl),
   (derive_batch_failure_filter oracle_all_ok [] 2).2 0 [] 0 rfl rfl rfl (by norm_num)⟩

/-- C3, counterexample: the claim says no panic or process abort is
reachable from within `derive_batch` for any limit, but
`ChildNumber::new(index, false).unwrap()` (vanity.rs line 61) panics once
the loop reaches index `2^31` — reachable with `limit = 2^31 + 1` even when
every derivation step succeeds (`none` models the panic). -/
theorem derive_batch_panic_cex :
    derive_batch oracle_all_ok [] (2 ^ 31 + 1) = none := by
  rw [derive_batch_success oracle_all_ok [] (2 ^ 31 + 1) 0 [] 0 rfl rfl rfl]
  exact derive_indices_big_none oracle_all_ok 0 _ (2 ^ 31) le_rfl
    (List.mem_range.mpr (Nat.lt_succ_self _))

/-- C3, amended: for every oracle, seed and limit at most `2^31` (every
index the loop can reach is an unhardened child number), `derive_batch`
never panics: each derivation-step failure only empties or shortens the
result, and the call always returns normally. -/
theorem derive_batch_no_panic_bounded {K : Type} (O : DerivOracle K) (m : List Nat)
    (limit : Nat) (h : limit ≤ 2 ^ 31) : (derive_batch O m limit).isSome = true := by
  cases hx : O.xprvNew (O.toSeed m) with
  | none => rw [derive_batch_early_xprv O m limit hx]; rfl
  | some x =>
    cases hp : O.pathParse account_path with
    | none => rw [derive_batch_early_path O m limit x hx hp]; rfl
    | some cs =>
      cases ha : derive_account O x cs with
      | none => rw [derive_batch_early_account O m limit x cs hx hp ha]; rfl
      | some acct =>
        rw [derive_batch_success O m limit x cs acct hx hp ha,
          derive_indices_eq_filterMap O acct _
            (fun i hi => lt_of_lt_of_le (List.mem_range.mp hi) h)]
        rfl

/-- C3, witness: the no-panic theorem evaluated at a concrete oracle and
limit 3. -/
theorem derive_batch_no_panic_bounded_witness :
    (derive_batch oracle_all_ok [] 3).isSome = true :=
  derive_batch_no_panic_bounded oracle_all_ok [] 3 (by norm_num)

/-- C5: for every oracle, seed and limit `L ≥ 1` (within the unhardened
range), when no derivation step fails `derive_batch` returns a sequence of
length at most `L` whose indices are exactly `0, 1, ..., L-1` — strictly
increasing starting at 0 — and every returned address text begins with the
fixed network tag `"kaspa"`. -/
theorem derive_batch_shape {K : Type} (O : DerivOracle K) (m : List Nat) (L : Nat)
    (x : K) (cs : List Nat) (acct : K) (hL : 1 ≤ L) (hL2 : L ≤ 2 ^ 31)
    (hx : O.xprvNew (O.toSeed m) = some x) (hp : O.pathParse account_path = some cs)
    (ha : derive_account O x cs = some acct)
    (hchild : ∀ c, (O.deriveChild acct c).isSome = true) :
    ∃ l, derive_batch O m L = some l ∧ l.length ≤ L ∧ l.map Prod.fst = List.range L ∧
      ∀ pr ∈ l, net_tag_text NetTag.mainnet <+: address_text O pr.2 := by
  have hfst := filterMap_map_fst (O.deriveChild acct) (fun _ k => mk_address O k)
    (List.range L) (fun i _ => hchild i)
  refine ⟨(List.range L).filterMap
      (fun i => (O.deriveChild acct i).map (fun k => (i, mk_address O k))), ?_, ?_, hfst, ?_⟩
  · rw [derive_batch_success O m L x cs acct hx hp ha]
    exact derive_indices_eq_filterMap O acct _
      (fun i hi => lt_of_lt_of_le (List.mem_range.mp hi) hL2)
  · have hlen : ((List.range L).filterMap
        (fun i => (O.deriveChild acct i).map (fun k => (i, mk_address O k)))).length = L := by
      rw [← List.length_map _ Prod.fst, hfst, List.length_range]
    exact le_of_eq hlen
  · intro pr hpr
    rcases mem_filterMap_addr O acct _ pr hpr with ⟨k, hk⟩
    rw [hk]
    exact address_text_has_tag O k

/-- C5, witness: the shape theorem evaluated at a concrete all-success
oracle with limit 2. -/
theorem derive_batch_shape_witness :
    ∃ l, derive_batch oracle_all_ok [] 2 = some l ∧ l.length ≤ 2 ∧
      l.map Prod.fst = List.range 2 ∧
      ∀ pr ∈ l, net_tag_text NetTag.mainnet <+: address_text oracle_all_ok pr.2 :=
  derive_batch_shape oracle_all_ok [] 2 0 [] 0 (by norm_num) (by norm_num) rfl rfl rfl
    (fun _ => rfl)

/-- C10: a zero scan limit is accepted end to end — `derive_batch` with
limit 0 returns the empty sequence for every oracle and seed, the
coordinator's iteration then reports the warn-and-retry outcome (so no
address is produced or matched), and `startup` passes `scan_limit` through
without any precondition check. -/
theorem scan_limit_zero_behavior {K : Type} (O : DerivOracle K) (cfg : Config)
    (m : List Nat) (h : cfg.scan_limit = 0) :
    derive_batch O m 0 = some [] ∧ worker_iteration O cfg m = some IterOutcome.warnRetry ∧
      (∀ a c, startup a = Except.ok c → c.scan_limit = a.scan_limit) := by
  have hempty : derive_batch O m 0 = some [] := by
    cases hx : O.xprvNew (O.toSeed m) with
    | none => exact derive_batch_early_xprv O m 0 hx
    | some x =>
      cases hp : O.pathParse account_path with
      | none => exact derive_batch_early_path O m 0 x hx hp
      | some cs =>
        cases ha : derive_account O x cs with
        | none => exact derive_batch_early_account O m 0 x cs hx hp ha
        | some acct => rw [derive_batch_success O m 0 x cs acct hx hp ha]; rfl
  refine ⟨hempty, ?_, fun a c hc => startup_scan_limit_id a c hc⟩
  unfold worker_iteration
  rw [h, hempty]
  rfl

/-- C10, witness: the zero-limit theorem evaluated at a concrete oracle and
configuration with `scan_limit = 0`. -/
theorem scan_limit_zero_behavior_witness :
    derive_batch oracle_all_ok [] 0 = some [] ∧
      worker_iteration oracle_all_ok ⟨some ['t'], none, false, 0⟩ [] =
        some IterOutcome.warnRetry ∧
      (∀ a c, startup a = Except.ok c → c.scan_limit = a.scan_limit) :=
  scan_limit_zero_behavior oracle_all_ok ⟨some ['t'], none, false, 0⟩ [] rfl

/-- C4: the matcher accepts an address iff its searchable tail — the
colon-separated payload minus its first two structural characters, empty
when the payload has length ≤ 2 — starts with the prefix (when present) and
ends with the suffix (when present); an absent sub-pattern always matches,
and with `case_sensitive = false` the comparisons are on the case-folded
tail (the pattern having been folded at startup). -/
theorem matches_characterization (case_sensitive : Bool) (pre suf : Option (List Char))
    (addr : List Char) (hpat : pre ≠ none ∨ suf ≠ none) :
    addr_matches case_sensitive pre suf addr = true ↔
      ((∀ p, pre = some p →
          p <+: (if case_sensitive then searchable_of (payload_of addr)
                 else to_lower (searchable_of (payload_of addr)))) ∧
       (∀ s, suf = some s →
          s <:+ (if case_sensitive then searchable_of (payload_of addr)
                 else to_lower (searchable_of (payload_of addr))))) := by
  simp only [addr_matches]
  rw [Bool.and_eq_true]
  constructor
  · rintro ⟨h1, h2⟩
    refine ⟨?_, ?_⟩
    · rintro p rfl
      cases case_sensitive <;> simpa [ List.isPrefixOf_iff_prefix] using h1
    · rintro s rfl
      cases case_sensitive <;> simpa [List.isSuffixOf_iff_suffix] using h2
  · rintro ⟨h1, h2⟩
    constructor
    · cases pre with
      | none => rfl
      | some p =>
        have hp := h1 p rfl
        cases case_sensitive <;> simpa [ List.isPrefixOf_iff_prefix] using hp
    · cases suf with
      | none => rfl
      | some s =>
        have hs := h2 s rfl
        cases case_sensitive <;> simpa [List.isSuffixOf_iff_suffix] using hs

/-- C4, witness: the characterization evaluated on a concrete address and a
present prefix pattern. -/
theorem matches_characterization_witness :
    addr_matches true (some ['a']) none (['k', ':', 'q', 'p', 'a', 'z']) = true :=
  (matches_characterization true (some ['a']) none (['k', ':', 'q', 'p', 'a', 'z'])
      (Or.inl (by simp))).mpr
    (by
      constructor
      · rintro p hp
        injection hp with h2
        rw [← h2]
        exact ⟨['z'], rfl⟩
      · rintro s hs
        cases hs)

/-- C6: case-insensitive matching is invariant under case-folding of the
inputs — matching with `case_sensitive = false` against the upper-case
pattern `{prefix := "AB"}` agrees with matching the lowercased address
against the lowercased pattern `{prefix := "ab"}` (the pattern folded once
at startup, the tail folded per comparison). -/
theorem matches_case_fold_equiv (addr : List Char) :
    matches_cli false (some ['A', 'B']) none addr
      = matches_cli false (some ['a', 'b']) none (to_lower addr) := by
  have hAB : normalize_pattern false ['A', 'B'] = ['a', 'b'] := by decide
  have hab : normalize_pattern false ['a', 'b'] = ['a', 'b'] := by decide
  simp only [matches_cli, Option.map_some', Option.map_none', hAB, hab, addr_matches,
    payload_of_to_lower, searchable_of_to_lower, to_lower_idem]
  rfl

/-- C7: any supplied prefix or suffix whose normalized text contains one of
the excluded characters 1, b, i, o makes `startup` exit with status 1 —
before the search loop (which only a returned `Config` can reach) begins. -/
theorem validation_rejects_charset (a : Args)
    (h : (∃ p, a.pre = some p ∧ ∃ c ∈ normalize_pattern a.case_sensitive p, c ∈ invalid_chars) ∨
         (∃ s, a.suf = some s ∧ ∃ c ∈ normalize_pattern a.case_sensitive s, c ∈ invalid_chars)) :
    startup a = Except.error 1 := by
  have key : ∀ t : List Char, (∃ c ∈ t, c ∈ invalid_chars) →
      (validate_pattern t).isSome = true := by
    rintro t ⟨c, hct, hci⟩
    unfold validate_pattern
    rw [List.find?_isSome]
    exact ⟨c, hct, List.elem_eq_true_of_mem hci⟩
  unfold startup
  rcases h with ⟨p, hp, hc⟩ | ⟨s, hs, hc⟩
  · have h1 : ¬(a.pre.isNone && a.suf.isNone) = true := by
      rw [hp]; simp
    have h2 : ((a.pre.map (normalize_pattern a.case_sensitive)).any
        (fun q => (validate_pattern q).isSome)) = true := by
      rw [hp]
      exact key _ hc
    rw [if_neg h1, if_pos h2]
  · have h1 : ¬(a.pre.isNone && a.suf.isNone) = true := by
      rw [hs]; simp
    by_cases h2 : ((a.pre.map (normalize_pattern a.case_sensitive)).any
        (fun q => (validate_pattern q).isSome)) = true
    · rw [if_neg h1, if_pos h2]
    · have h3 : ((a.suf.map (normalize_pattern a.case_sensitive)).any
          (fun q => (validate_pattern q).isSome)) = true := by
        rw [hs]
        exact key _ hc
      rw [if_neg h1, if_neg h2, if_pos h3]

/-- C7, witness: a suffix containing the excluded character b is rejected
with exit status 1. -/
theorem validation_rejects_charset_witness :
    startup ⟨none, some ['b'], false, 24, 1⟩ = Except.error 1 :=
  validation_rejects_charset ⟨none, some ['b'], false, 24, 1⟩
    (Or.inr ⟨['b'], rfl, 'b', by decide, by decide⟩)

/-- C8: `generate_random_mnemonic` draws 16 bytes of entropy for 12 words,
32 bytes for 24 words and 32 bytes for every other requested value, and for
word counts 12 and 24 the produced seed phrase decodes to exactly that many
words (via the bip39 entropy-to-word-count contract). -/
theorem generate_entropy_and_word_count (rng : Nat → List Nat)
    (hrng : ∀ n, (rng n).length = n) :
    entropy_len 12 = 16 ∧ entropy_len 24 = 32 ∧
      (∀ w, w ≠ 12 → w ≠ 24 → entropy_len w = 32) ∧
      mnemonic_word_count (generate_random_mnemonic rng 12) = 12 ∧
      mnemonic_word_count (generate_random_mnemonic rng 24) = 24 := by
  refine ⟨rfl, rfl, ?_, ?_, ?_⟩
  · intro w h1 h2
    unfold entropy_len
    split <;> simp_all
  · unfold generate_random_mnemonic mnemonic_word_count
    rw [hrng]
    rfl
  · unfold generate_random_mnemonic mnemonic_word_count
    rw [hrng]
    rfl

/-- C8, witness: the entropy and word-count theorem evaluated with a
concrete rng producing zero bytes. -/
theorem generate_entropy_and_word_count_witness :
    entropy_len 12 = 16 ∧ entropy_len 24 = 32 ∧
      (∀ w, w ≠ 12 → w ≠ 24 → entropy_len w = 32) ∧
      mnemonic_word_count (generate_random_mnemonic (fun n => List.replicate n 0) 12) = 12 ∧
      mnemonic_word_count (generate_random_mnemonic (fun n => List.replicate n 0) 24) = 24 :=
  generate_entropy_and_word_count (fun n => List.replicate n 0)
    (fun n => List.length_replicate n 0)

/-- C9: the shared `found` flag starts false; no step of the worker loop
ever changes it except the single store of `true` on a match (the
`match_found` step, which immediately precedes process exit), so it flips
false→true at most once, never resets, and once any reader observes `true`
it never afterwards observes `false`. -/
theorem found_flag_monotone :
    init_state.found = false ∧
      (∀ s s' : SearchState, WorkerStep s s' → s.found ≠ s'.found →
        s.found = false ∧ s'.found = true) ∧
      (∀ s s' : SearchState, Relation.ReflTransGen WorkerStep s s' →
        s.found = true → s'.found = true) := by
  refine ⟨rfl, ?_, ?_⟩
  · intro s s' h hne
    cases h with
    | seen_found hf => exact absurd rfl hne
    | empty_batch hf => exact absurd rfl hne
    | scanned k hf hk => simp_all
    | match_found k hf hk => exact ⟨hf, rfl⟩
  · intro s s' h
    induction h with
    | refl => exact id
    | tail _ hstep ih => exact fun hf => worker_step_found_mono hstep (ih hf)

/-- C9, witness: the monotonicity theorem applied to a concrete state and
the empty trace starting from it. -/
theorem found_flag_monotone_witness :
    init_state.found = false ∧ (⟨true, 5⟩ : SearchState).found = true :=
  ⟨found_flag_monotone.1,
   found_flag_monotone.2.2 ⟨true, 5⟩ ⟨true, 5⟩ Relation.ReflTransGen.refl rfl⟩

/-- C2, counterexample: the claim says a progress line prints exactly when
the batch addition makes the count cross a multiple of 1000, but the source
tests the value `fetch_add` RETURNS — the count before the addition — for
divisibility: a worker whose addition takes the counter from 999 to 1000
crosses the multiple 1000 yet prints nothing, while the very first batch
(counter 0, crossing nothing) does print. -/
theorem progress_crossing_cex :
    crosses_multiple 999 1 ∧
      (progress_output (prob_single 2 0) (fetch_add 999 1).1).isSome = false ∧
      ¬ crosses_multiple 0 1 ∧
      (progress_output (prob_single 2 0) (fetch_add 0 1).1).isSome = true := by
  refine ⟨⟨1, by norm_num⟩, ?_, ?_, ?_⟩
  · simp [progress_output, fetch_add]
  · rintro ⟨m, hm, hlt, hle⟩
    omega
  · simp [progress_output, fetch_add]

/-- C2, amended: a progress line is printed exactly when the counter value
returned by the worker's `fetch_add` — the processed count BEFORE its batch
is added — is an exact multiple of 1000, and the printed estimate is
`1 - (1 - p)^n` with `p = 32^-(prefix_len + suffix_len)` and `n` that
pre-addition count. -/
theorem progress_line_condition (pre_len suf_len prev k : Nat) :
    ((progress_output (prob_single pre_len suf_len) (fetch_add prev k).1).isSome = true ↔
        prev % 1000 = 0) ∧
      (prev % 1000 = 0 →
        progress_output (prob_single pre_len suf_len) (fetch_add prev k).1
          = some (1 - (1 - 1 / 32 ^ (pre_len + suf_len)) ^ prev)) := by
  constructor
  · by_cases h : prev % 1000 = 0
    · simp [progress_output, fetch_add, h]
    · simp [progress_output, fetch_add, h]
  · intro h
    simp [progress_output, fetch_add, h, prob_single]

/-- C2, witness: the amended print condition evaluated at pre-addition
count 2000 with batch size 5. -/
theorem progress_line_condition_witness :
    (progress_output (prob_single 1 0) (fetch_add 2000 5).1).isSome = true :=
  (progress_line_condition 1 0 2000 5).1.mpr (by norm_num)

end KasVanity
